import Mathlib

/-!
Verification of the `biota` calibration module (`src/biota/calibration.py`).

The Python module is embedded shallowly over an arbitrary linear ordered
field `α` (exact arithmetic in place of IEEE floats).  Non-finite float
values (NaN and the infinities produced by division by zero, logarithm of a
non-positive number, or the square root of a negative number) are modelled
by `Option α`, with `none` playing the role of the non-finite sentinel that
the code propagates through its array computations; this matches how
`numpy` propagates NaN through sums, products and comparisons used here.
Transcendental functions (`sqrt`, `exp`, `log10`, `10 ** x`) do not exist
computably on an abstract field, so they are passed in as an explicit
`NumOps` record; theorems that need a genuine property of them (such as
`sqrt (1/L) < sqrt (1 + 2/L)`) take that property as a hypothesis.

The code is Python 2 era (it relies on `window_size / 2` being integer
division and on `round` rounding half away from zero), and the embedding
follows those semantics.
-/

/-- Record of the transcendental operations used by the calibration code. -/
structure NumOps (α : Type) where
  fsqrt : α → α
  fexp : α → α
  flog10 : α → α
  fpow10 : α → α

/-- Concrete operations on `ℚ` used to exercise the model on closed inputs.
The fields are simple computable stand-ins; every theorem that relies on an
analytic property of the real operations states that property as an
explicit hypothesis, and these stand-ins satisfy the hypotheses used. -/
def ratOps : NumOps ℚ where
  fsqrt := fun x => x
  fexp := fun x => x
  flog10 := fun x => x
  fpow10 := fun x => x

/-- Addition on float-like values: NaN propagates. -/
def rAdd {α : Type} [LinearOrderedField α] (x y : Option α) : Option α :=
  x.bind (fun a => y.map (fun b => a + b))

/-- Subtraction on float-like values: NaN propagates. -/
def rSub {α : Type} [LinearOrderedField α] (x y : Option α) : Option α :=
  x.bind (fun a => y.map (fun b => a - b))

/-- Multiplication on float-like values: NaN propagates (`NaN * 0 = NaN`,
as for floats). -/
def rMul {α : Type} [LinearOrderedField α] (x y : Option α) : Option α :=
  x.bind (fun a => y.map (fun b => a * b))

/-- Division on float-like values: NaN propagates, and division by zero
yields a non-finite result (`±inf` or `NaN` for floats), modelled `none`. -/
def rDiv {α : Type} [LinearOrderedField α] (x y : Option α) : Option α :=
  x.bind (fun a => y.bind (fun b => if b = 0 then none else some (a / b)))

/-- Model of `np.sqrt`: NaN propagates and a negative argument produces NaN. -/
def rSqrt {α : Type} [LinearOrderedField α] (ops : NumOps α) (x : Option α) :
    Option α :=
  x.bind (fun a => if a < 0 then none else some (ops.fsqrt a))

/-- Model of `np.ma.log10` style domain handling: NaN propagates and a
non-positive argument produces an invalid (non-finite) result. -/
def rLog10 {α : Type} [LinearOrderedField α] (ops : NumOps α) (x : Option α) :
    Option α :=
  x.bind (fun a => if a ≤ 0 then none else some (ops.flog10 a))

/-- Sum of float-like values over a finite index set: the sum is NaN as soon
as one summand is NaN, otherwise it is the exact sum.  This is how a
convolution sum behaves on an array containing NaN entries. -/
def rsum {α : Type} [LinearOrderedField α] {ι : Type} [DecidableEq ι]
    (s : Finset ι) (f : ι → Option α) : Option α :=
  if ∀ i ∈ s, (f i).isSome then some (∑ i ∈ s, (f i).getD 0) else none

/-- Half-sample symmetric reflection of an arbitrary integer index into
`[0, n)`: the boundary rule of `scipy.signal.convolve2d(..., boundary =
'symm')`, extended periodically for indices that reflect more than once
(indices `..., 2, 1, 0, 0, 1, 2, ..., n-1, n-1, n-2, ...`). -/
def reflectIdx (n : ℕ) (i : ℤ) : ℕ :=
  if n = 0 then 0
  else
    (if i % (2 * (n : ℤ)) < (n : ℤ) then i % (2 * (n : ℤ))
     else 2 * (n : ℤ) - 1 - i % (2 * (n : ℤ))).toNat

/-- A 2D grid of float-like values extended to all integer indices by the
symmetric boundary rule. -/
def extGrid {α : Type} [LinearOrderedField α] (g : ℕ → ℕ → Option α)
    (h w : ℕ) : ℤ → ℤ → Option α :=
  fun i j => g (reflectIdx h i) (reflectIdx w j)

/-- Index window of a `k × k` kernel. -/
def win (k : ℕ) : Finset (ℕ × ℕ) :=
  Finset.range k ×ˢ Finset.range k

/-- One output entry of `scipy.signal.convolve2d(img, ones((k, k)) / k²,
boundary = 'symm')` (full mode): the average of the extended grid over the
index window `[i-k+1, i] × [j-k+1, j]`.  The code builds the kernel as
`ones / k²` and sums products; summing and then multiplying by `1/k²` is
the same quantity in exact arithmetic. -/
def convFullAt {α : Type} [LinearOrderedField α] (g : ℤ → ℤ → Option α)
    (k : ℕ) (i j : ℤ) : Option α :=
  rMul (rsum (win k) (fun ab => g (i - ab.1) (j - ab.2)))
    (some (1 / ((k : α) * k)))

/-- Size of a full-mode 2D convolution output along one axis (line 39/54:
`signal.convolve2d` with default `mode`). -/
def convFullDim (n k : ℕ) : ℕ :=
  n + k - 1

/-- Length of the Python slice `a[b : -b]` of an axis of length `n`
(lines 43 and 59).  When `b = 0` the slice is `a[0 : -0] = a[0 : 0]`,
which is empty. -/
def pySliceDim (n b : ℕ) : ℕ :=
  if b = 0 then 0 else n - 2 * b

/-- Shape of the arrays returned by `_window_mean` / `_window_stdev`
(convolve in full mode, then cut `window_size / 2` off every edge). -/
def windowOutDims (h w k : ℕ) : ℕ × ℕ :=
  (pySliceDim (convFullDim h k) (k / 2), pySliceDim (convFullDim w k) (k / 2))

/-- Value of `_window_mean(img, window_size = k)` at output position
`(r, c)`: entry `(r + k/2, c + k/2)` of the full convolution. -/
def windowMeanAt {α : Type} [LinearOrderedField α] (g : ℕ → ℕ → Option α)
    (h w k : ℕ) (r c : ℕ) : Option α :=
  convFullAt (extGrid g h w) k ((r : ℤ) + (k / 2 : ℕ)) ((c : ℤ) + (k / 2 : ℕ))

/-- Value of the windowed mean of squares (`c2` in `_window_stdev`, the
convolution of `img * img`) at output position `(r, c)`. -/
def windowSqMeanAt {α : Type} [LinearOrderedField α] (g : ℕ → ℕ → Option α)
    (h w k : ℕ) (r c : ℕ) : Option α :=
  convFullAt (extGrid (fun a b => rMul (g a b) (g a b)) h w) k
    ((r : ℤ) + (k / 2 : ℕ)) ((c : ℤ) + (k / 2 : ℕ))

/-- Value of `_window_stdev(img, window_size = k)` at output position
`(r, c)`: `np.sqrt(c2 - c1 * c1)` (line 59), with no clamping of the
variance before the square root. -/
def windowStdevAt {α : Type} [LinearOrderedField α] (ops : NumOps α)
    (g : ℕ → ℕ → Option α) (h w k : ℕ) (r c : ℕ) : Option α :=
  rSqrt ops
    (rSub (windowSqMeanAt g h w k r c)
      (rMul (windowMeanAt g h w k r c) (windowMeanAt g h w k r c)))

/-- The window-size validation of `enhanced_lee_filter` (line 29):
`window_size % 2 == 1` under Python integer semantics, where the remainder
of a negative number by 2 is 0 or 1. -/
def windowSizeCheckZ (k : ℤ) : Bool :=
  decide (k % 2 = 1)

/-- A masked 2D array (`numpy.ma` masked array): stored data values (which
may themselves be the NaN sentinel) and a boolean validity mask, `true`
marking invalid entries. -/
structure MGrid (α : Type) where
  h : ℕ
  w : ℕ
  data : ℕ → ℕ → Option α
  mask : ℕ → ℕ → Bool

/-- Broadcast of two lengths along one axis under numpy rules: equal, or
one of them is 1. -/
def bcastDim (a b : ℕ) : Option ℕ :=
  if a = b then some a else if a = 1 then some b else if b = 1 then some a
  else none

/-- Threshold `cu = sqrt(1 / n_looks)` (line 63, `(1./n_looks) ** 0.5`). -/
def leeCu {α : Type} [LinearOrderedField α] (ops : NumOps α) (L : ℕ) : α :=
  ops.fsqrt (1 / (L : α))

/-- Threshold `cmax = sqrt(1 + 2 / n_looks)` (line 64). -/
def leeCmax {α : Type} [LinearOrderedField α] (ops : NumOps α) (L : ℕ) : α :=
  ops.fsqrt (1 + 2 / (L : α))

/-- Lines 70-71: `img_mask = img.data` aliases the caller's data buffer and
`img_mask[img.mask == True] = np.nan` overwrites every masked position with
NaN in place.  This function is both the array the filter computes with and
the state of the caller's `img.data` after the call. -/
def leeMasked {α : Type} (img : MGrid α) : ℕ → ℕ → Option α :=
  fun r c => if img.mask r c then none else img.data r c

/-- Line 76: coefficient of variation `ci = img_std / img_mean`. -/
def leeCi {α : Type} [LinearOrderedField α] (ops : NumOps α) (img : MGrid α)
    (k : ℕ) (r c : ℕ) : Option α :=
  rDiv (windowStdevAt ops (leeMasked img) img.h img.w k r c)
    (windowMeanAt (leeMasked img) img.h img.w k r c)

/-- Line 77: `ci[np.isfinite(ci) == False] = 0.`, the coefficient of
variation with non-finite entries replaced by zero. -/
def leeCiR {α : Type} [LinearOrderedField α] (ops : NumOps α) (img : MGrid α)
    (k : ℕ) (r c : ℕ) : α :=
  (leeCi ops img k r c).getD 0

/-- Lines 79-86: the weight array is initialised to zero and then written by
three masked assignments in order (`w_t[ci <= cu] = 1`, `w_t[ci >= cmax] =
0`, `w_t[s] = exp(...)` on the strip `cu < ci < cmax`); the value of a cell
is the last write that hit it, so the conditions are tested here in the
reverse of program order. -/
def leeWeight {α : Type} [LinearOrderedField α] (ops : NumOps α)
    (img : MGrid α) (k L : ℕ) (r c : ℕ) : α :=
  if leeCu ops L < leeCiR ops img k r c ∧ leeCiR ops img k r c < leeCmax ops L
  then
    ops.fexp ((-1 * (leeCiR ops img k r c - leeCu ops L)) /
      (leeCmax ops L - leeCiR ops img k r c))
  else if leeCmax ops L ≤ leeCiR ops img k r c then 0
  else if leeCiR ops img k r c ≤ leeCu ops L then 1
  else 0

/-- Line 88: `img_filtered = (img_mean * w_t) + (img_mask * (1 - w_t))`. -/
def leeCombineAt {α : Type} [LinearOrderedField α] (ops : NumOps α)
    (img : MGrid α) (k L : ℕ) (r c : ℕ) : Option α :=
  rAdd
    (rMul (windowMeanAt (leeMasked img) img.h img.w k r c)
      (some (leeWeight ops img k L r c)))
    (rMul (leeMasked img r c) (some (1 - leeWeight ops img k L r c)))

/-- `enhanced_lee_filter(img, window_size, n_looks)` (lines 18-94).  The
oddness assert is the error exit of line 29; the broadcast check models the
numpy error raised by line 88 when the windowed arrays (which are empty for
`window_size = 1` because of the `[0:-0]` slice) cannot be broadcast
against the input.  On success the result is remasked where the combined
value is non-finite and those stored values are forced to 0 (lines 90-92). -/
def enhancedLeeFilter {α : Type} [LinearOrderedField α] (ops : NumOps α)
    (img : MGrid α) (k L : ℕ) : Except String (MGrid α) :=
  if k % 2 ≠ 1 then Except.error ("Window size must be an odd number")
  else
    match bcastDim (windowOutDims img.h img.w k).1 img.h,
        bcastDim (windowOutDims img.h img.w k).2 img.w with
    | some h2, some w2 =>
        Except.ok
          { h := h2
            w := w2
            data := fun r c => some ((leeCombineAt ops img k L r c).getD 0)
            mask := fun r c => (leeCombineAt ops img k L r c).isNone }
    | _, _ => Except.error ("operands could not be broadcast together")

/-- Line 146: `assert lat < 90. or lat > -90.` — the condition written in
the source, a disjunction. -/
def latCheck (lat : ℤ) : Bool :=
  decide (lat < 90) || decide (lat > -90)

/-- Line 148: `assert lon < 180. or lon > -180.` — the condition written in
the source, a disjunction. -/
def lonCheck (lon : ℤ) : Bool :=
  decide (lon < 180) || decide (lon > -180)

/-- Line 150: the year must lie in 2007-2010 or in 2015-present, where
`current` stands for `dt.datetime.now().year`. -/
def yearCheck (year current : ℤ) : Bool :=
  (decide (2007 ≤ year) && decide (year ≤ 2010)) ||
    (decide (2015 ≤ year) && decide (year ≤ current))

/-- The validation block of `ALOS.__init__` (lines 144-150): the three
range asserts in program order, each raising on failure. -/
def alosValidate (lat lon year current : ℤ) : Except String Unit :=
  if latCheck lat = false then Except.error ("Latitude must be between -90 and 90 degrees")
  else if lonCheck lon = false then Except.error ("Longitude must be between -180 and 180 degrees")
  else if yearCheck year current = false then Except.error ("Years must be in the range 2007 - 2010 and 2015 - present")
  else Except.ok ()

/-- `ALOS.__getSatellite` (lines 187-197). -/
def getSatellite (year : ℤ) : String :=
  if 2015 ≤ year then "ALOS-2" else "ALOS-1"

/-- `getGamma0` line 370 in decibel units: `10 * np.ma.log10(DN ** 2) - 83`
as a masked-array operation.  The result is masked where the tile mask is
set or where the logarithm had a domain error. -/
def gamma0dB {α : Type} [LinearOrderedField α] (ops : NumOps α)
    (t : MGrid α) : MGrid α :=
  { h := t.h
    w := t.w
    data := fun r c =>
      rSub (rMul (some 10) (rLog10 ops (rMul (t.data r c) (t.data r c))))
        (some 83)
    mask := fun r c =>
      t.mask r c || (rLog10 ops (rMul (t.data r c) (t.data r c))).isNone }

/-- `getGamma0` line 377: `10 ** (gamma0 / 10.)` on the masked array; the
mask is unchanged and data values are transformed. -/
def toNaturalUnits {α : Type} [LinearOrderedField α] (ops : NumOps α)
    (g : MGrid α) : MGrid α :=
  { h := g.h
    w := g.w
    data := fun r c => (g.data r c).map (fun v => ops.fpow10 (v / 10))
    mask := g.mask }

/-- Lines 380 and 401: `x.data[self.mask] = 0`, zeroing stored values at
tile-masked positions while leaving the array's own mask unchanged. -/
def tidyData {α : Type} [LinearOrderedField α] (tileMask : ℕ → ℕ → Bool)
    (g : MGrid α) : MGrid α :=
  { h := g.h
    w := g.w
    data := fun r c => if tileMask r c then some 0 else g.data r c
    mask := g.mask }

/-- `getGamma0(polarisation = 'HV', units = 'natural', lee_filter = lf)`
(lines 362-382) for a tile whose DN masked array is `t`: calibrate to
decibels, optionally filter, convert to natural units, then zero the data
under the tile mask. -/
def getGamma0Natural {α : Type} [LinearOrderedField α] (ops : NumOps α)
    (t : MGrid α) (lf : Bool) : Except String (MGrid α) :=
  (if lf then enhancedLeeFilter ops (gamma0dB ops t) 3 16
   else Except.ok (gamma0dB ops t)).map
    (fun g => tidyData t.mask (toNaturalUnits ops g))

/-- `getAGB(lee_filter = lf)` (lines 384-405): the fixed linear model
`AGB = 715.667 * gamma0 - 5.967` (identical for both satellites), with the
data zeroed again under the tile mask. -/
def getAGB {α : Type} [LinearOrderedField α] (ops : NumOps α) (t : MGrid α)
    (lf : Bool) : Except String (MGrid α) :=
  (getGamma0Natural ops t lf).map
    (fun g =>
      tidyData t.mask
        { h := g.h
          w := g.w
          data := fun r c =>
            rSub (rMul (some (715667 / 1000)) (g.data r c))
              (some (5967 / 1000))
          mask := g.mask })

/-- A GDAL geotransform: `(originX, pixelWidth, rotX, originY, rotY,
pixelHeight)`. -/
structure GeoT where
  a0 : ℚ
  a1 : ℚ
  a2 : ℚ
  a3 : ℚ
  a4 : ℚ
  a5 : ℚ

/-- Python `int()` applied to a real quantity: truncation toward zero
(floor for nonnegative arguments, ceiling for negative ones). -/
def pyTrunc (q : ℚ) : ℤ :=
  if 0 ≤ q then Int.floor q else Int.ceil q

/-- Python 2 `round`: round half away from zero (the code runs under
Python 2; `int(round(x))` is then this value). -/
def pyRound (q : ℚ) : ℤ :=
  if 0 ≤ q then Int.floor (q + 1 / 2) else Int.ceil (q - 1 / 2)

/-- `_world2Pixel(geo_t, x, y, buffer_size)` (lines 551-573): the origin is
shifted outward by the buffer and the offsets are divided by the pixel
sizes and converted with `int(...)`. -/
def world2Pixel (geo : GeoT) (x y : ℚ) (bufferSize : ℚ) : ℤ × ℤ :=
  (pyTrunc ((x - (geo.a0 - bufferSize)) / geo.a1),
   pyTrunc ((y - (geo.a3 + bufferSize)) / geo.a5))

/-- Line 666: `buffer_px = int(round(buffer_size / data.geo_t[1]))`,
clipped to a natural number (a negative buffer is out of scope). -/
def bufferPx (geo : GeoT) (bufferSize : ℚ) : ℕ :=
  (pyRound (bufferSize / geo.a1)).toNat

/-- Line 669: the scratch canvas is created as `Image.new("I", (ySize +
2 * buffer_px, xSize + 2 * buffer_px), 0)`; PIL takes `(width, height)`,
so this is the canvas size as `(width, height)` — note the source passes
`ySize` to the width slot and `xSize` to the height slot. -/
def canvasSizePIL (xSize ySize bpx : ℕ) : ℕ × ℕ :=
  (ySize + 2 * bpx, xSize + 2 * bpx)

/-- Lines 738-739: the canvas bytes are reinterpreted as an array of shape
`(im.size[1], im.size[0])`, i.e. `(height, width)` as `(rows, cols)`. -/
def maskShapePreCrop (xSize ySize bpx : ℕ) : ℕ × ℕ :=
  ((canvasSizePIL xSize ySize bpx).2, (canvasSizePIL xSize ySize bpx).1)

/-- Line 746: `mask[buffer_px : shape0 - buffer_px, buffer_px : shape1 -
buffer_px]`, removing the padding border (here both slice ends are written
explicitly, so no empty-slice pitfall arises for `buffer_px = 0`). -/
def cropShape (s : ℕ × ℕ) (bpx : ℕ) : ℕ × ℕ :=
  (s.1 - 2 * bpx, s.2 - 2 * bpx)

/-- Shape `(rows, cols)` of the boolean mask returned by
`rasterizeShapefile`. -/
def rasterMaskShape (xSize ySize bpx : ℕ) : ℕ × ℕ :=
  cropShape (maskShapePreCrop xSize ySize bpx) bpx

/-- Shape `(rows, cols)` of the tile's own arrays: `gdal.ReadAsArray`
returns `(RasterYSize, RasterXSize) = (ySize, xSize)` (lines 303-313). -/
def tileArrayShape (xSize ySize : ℕ) : ℕ × ℕ :=
  (ySize, xSize)

/-- The bounding-box prefilter of `rasterizeShapefile` (lines 697-700) for
a degenerate shape whose bounding box is the single vertex `(x, y)`, in the
tile's coordinate system: the shape is kept when none of the four
`continue` conditions fires.  Note the vertical conditions add
`buffer_size` with the same sign as the horizontal ones, which narrows
rather than widens the kept band in `y`. -/
def shapeKept (geo : GeoT) (xSize ySize : ℕ) (bufferSize : ℚ)
    (p : ℚ × ℚ) : Prop :=
  geo.a0 - bufferSize ≤ p.1 ∧
    p.1 ≤ geo.a0 + geo.a1 * ySize + bufferSize ∧
    geo.a3 + geo.a5 * xSize + bufferSize ≤ p.2 ∧
    p.2 ≤ geo.a3 - bufferSize

instance (geo : GeoT) (xSize ySize : ℕ) (bufferSize : ℚ) (p : ℚ × ℚ) :
    Decidable (shapeKept geo xSize ySize bufferSize p) := by
  unfold shapeKept
  infer_instance

/-- The scratch canvas after drawing (lines 687-735), for a shapefile whose
shapes are degenerate two-vertex polylines `[p, p]` (shape type 3): PIL
draws a zero-length line as the single pixel the vertex maps to, and
silently clips pixels outside the canvas.  `shapes` lists the vertex of
each such shape; the coordinate transformer is the identity (shapefile
already in the tile's CRS). -/
def drawnCanvas (geo : GeoT) (xSize ySize : ℕ) (bufferSize : ℚ)
    (shapes : List (ℚ × ℚ)) (r c : ℤ) : Bool :=
  decide (0 ≤ r ∧ r < ((canvasSizePIL xSize ySize (bufferPx geo bufferSize)).2 : ℤ) ∧
    0 ≤ c ∧ c < ((canvasSizePIL xSize ySize (bufferPx geo bufferSize)).1 : ℤ) ∧
    ∃ p ∈ shapes, shapeKept geo xSize ySize bufferSize p ∧
      world2Pixel geo p.1 p.2 bufferSize = (c, r))

/-- One iteration of `scipy.ndimage.binary_dilation` with the default
cross-shaped structuring element, on an `H × W` canvas (values outside the
array are treated as zero and the output stays inside the array). -/
def dilate1 (H W : ℤ) (f : ℤ → ℤ → Bool) (r c : ℤ) : Bool :=
  decide (0 ≤ r ∧ r < H ∧ 0 ≤ c ∧ c < W) &&
    (f r c || f (r - 1) c || f (r + 1) c || f r (c - 1) || f r (c + 1))

/-- `binary_dilation(mask, iterations = n)`. -/
def dilateN (H W : ℤ) (n : ℕ) (f : ℤ → ℤ → Bool) : ℤ → ℤ → Bool :=
  match n with
  | 0 => f
  | n + 1 => dilate1 H W (dilateN H W n f)

/-- `rasterizeShapefile(data, shp, buffer_size)` (lines 647-751) for a
shapefile of degenerate polyline shapes as in `drawnCanvas`: draw on the
padded canvas, dilate by `buffer_px` when positive (line 742), crop the
padding border away (line 746) and read the result as booleans (line 749).
`(r, c)` indexes the final mask, whose shape is `rasterMaskShape`. -/
def rasterizeShapefileModel (geo : GeoT) (xSize ySize : ℕ)
    (bufferSize : ℚ) (shapes : List (ℚ × ℚ)) (r c : ℤ) : Bool :=
  decide (0 ≤ r ∧ r < ((rasterMaskShape xSize ySize (bufferPx geo bufferSize)).1 : ℤ) ∧
    0 ≤ c ∧ c < ((rasterMaskShape xSize ySize (bufferPx geo bufferSize)).2 : ℤ)) &&
    (if 0 < bufferPx geo bufferSize then
      dilateN ((canvasSizePIL xSize ySize (bufferPx geo bufferSize)).2 : ℤ)
        ((canvasSizePIL xSize ySize (bufferPx geo bufferSize)).1 : ℤ)
        (bufferPx geo bufferSize)
        (drawnCanvas geo xSize ySize bufferSize shapes)
        (r + bufferPx geo bufferSize) (c + bufferPx geo bufferSize)
    else
      drawnCanvas geo xSize ySize bufferSize shapes
        (r + bufferPx geo bufferSize) (c + bufferPx geo bufferSize))

/-- The windowed mean as the specification states it: the average of the
`k × k` neighbourhood centred on the pixel, with symmetric boundary
extension. -/
def specWindowMeanAt {α : Type} [LinearOrderedField α] (g : ℕ → ℕ → Option α)
    (h w k : ℕ) (r c : ℕ) : Option α :=
  rMul
    (rsum (win k) (fun ab =>
      extGrid g h w ((r : ℤ) - (k / 2 : ℕ) + ab.1) ((c : ℤ) - (k / 2 : ℕ) + ab.2)))
    (some (1 / ((k : α) * k)))

/-- The centred windowed mean of squares. -/
def specWindowSqMeanAt {α : Type} [LinearOrderedField α]
    (g : ℕ → ℕ → Option α) (h w k : ℕ) (r c : ℕ) : Option α :=
  rMul
    (rsum (win k) (fun ab =>
      extGrid (fun a b => rMul (g a b) (g a b)) h w
        ((r : ℤ) - (k / 2 : ℕ) + ab.1) ((c : ℤ) - (k / 2 : ℕ) + ab.2)))
    (some (1 / ((k : α) * k)))

/-- The centred windowed standard deviation `sqrt(E[x²] - E[x]²)`. -/
def specWindowStdevAt {α : Type} [LinearOrderedField α] (ops : NumOps α)
    (g : ℕ → ℕ → Option α) (h w k : ℕ) (r c : ℕ) : Option α :=
  rSqrt ops
    (rSub (specWindowSqMeanAt g h w k r c)
      (rMul (specWindowMeanAt g h w k r c) (specWindowMeanAt g h w k r c)))

/-- The coefficient of variation `sigma / mu` over the centred window. -/
def specLeeCi {α : Type} [LinearOrderedField α] (ops : NumOps α)
    (img : MGrid α) (k : ℕ) (r c : ℕ) : Option α :=
  rDiv (specWindowStdevAt ops (leeMasked img) img.h img.w k r c)
    (specWindowMeanAt (leeMasked img) img.h img.w k r c)

/-- The coefficient of variation with non-finite values replaced by 0, as
the specification states it. -/
def specLeeCiR {α : Type} [LinearOrderedField α] (ops : NumOps α)
    (img : MGrid α) (k : ℕ) (r c : ℕ) : α :=
  (specLeeCi ops img k r c).getD 0

/-- The per-pixel weight exactly as the claim states it: `w = 1` where
`ci ≤ cu`, `w = 0` where `ci ≥ cmax`, and
`w = exp(-1 * (ci - cu) / (cmax - ci))` otherwise. -/
def specLeeWeight {α : Type} [LinearOrderedField α] (ops : NumOps α)
    (img : MGrid α) (k L : ℕ) (r c : ℕ) : α :=
  if specLeeCiR ops img k r c ≤ leeCu ops L then 1
  else if leeCmax ops L ≤ specLeeCiR ops img k r c then 0
  else
    ops.fexp ((-1 * (specLeeCiR ops img k r c - leeCu ops L)) /
      (leeCmax ops L - specLeeCiR ops img k r c))

/-- The output value as the claim states it: `mu * w + original * (1 - w)`,
where `original` is the input with masked positions holding NaN. -/
def specLeeCombineAt {α : Type} [LinearOrderedField α] (ops : NumOps α)
    (img : MGrid α) (k L : ℕ) (r c : ℕ) : Option α :=
  rAdd
    (rMul (specWindowMeanAt (leeMasked img) img.h img.w k r c)
      (some (specLeeWeight ops img k L r c)))
    (rMul (leeMasked img r c) (some (1 - specLeeWeight ops img k L r c)))

/-- A concrete geotransform for closed evaluations: origin `(0, 0)`, pixel
width 1, pixel height -1. -/
def demoGeo : GeoT :=
  { a0 := 0, a1 := 1, a2 := 0, a3 := 0, a4 := 0, a5 := -1 }

/-- A 1 × 1 unmasked tile holding the value 5. -/
def demoImg1 : MGrid ℚ :=
  { h := 1, w := 1, data := fun _ _ => some 5, mask := fun _ _ => false }

/-- A 2 × 2 unmasked tile holding the value 3. -/
def demoImg22 : MGrid ℚ :=
  { h := 2, w := 2, data := fun _ _ => some 3, mask := fun _ _ => false }

/-- A 1 × 1 tile whose single pixel is masked. -/
def demoImgMasked : MGrid ℚ :=
  { h := 1, w := 1, data := fun _ _ => some 7, mask := fun _ _ => true }

/-- Two NaN-propagating sums agree when the summands agree on the index
set. -/
theorem rsum_congr {α : Type} [LinearOrderedField α] {ι : Type}
    [DecidableEq ι] {s : Finset ι} {f g : ι → Option α}
    (hfg : ∀ i ∈ s, f i = g i) : rsum s f = rsum s g := by
  unfold rsum
  have hsome : (∀ i ∈ s, (f i).isSome) ↔ (∀ i ∈ s, (g i).isSome) := by
    constructor <;> intro h i hi
    · rw [← hfg i hi]; exact h i hi
    · rw [hfg i hi]; exact h i hi
  by_cases h : ∀ i ∈ s, (f i).isSome
  · rw [if_pos h, if_pos (hsome.mp h)]
    exact congrArg some (Finset.sum_congr rfl (fun i hi => by rw [hfg i hi]))
  · rw [if_neg h, if_neg (fun hg => h (hsome.mpr hg))]

/-- Reflecting the kernel index window `(a, b) ↦ (k-1-a, k-1-b)` permutes
the window, so a NaN-propagating sum is unchanged. -/
theorem rsum_win_reflect {α : Type} [LinearOrderedField α] (k : ℕ)
    (F : ℕ × ℕ → Option α) :
    rsum (win k) (fun ab => F (k - 1 - ab.1, k - 1 - ab.2)) =
      rsum (win k) F := by
  unfold rsum
  have hmem : ∀ i : ℕ × ℕ, i ∈ win k ↔ i.1 < k ∧ i.2 < k := by
    intro i
    simp [win, Finset.mem_product]
  have hsome : (∀ i ∈ win k, (F (k - 1 - i.1, k - 1 - i.2)).isSome) ↔
      (∀ i ∈ win k, (F i).isSome) := by
    constructor <;> intro h i hi
    · have hik := (hmem i).mp hi
      have hi2 : (k - 1 - i.1, k - 1 - i.2) ∈ win k := by
        rw [hmem]
        constructor <;> simp <;> omega
      have := h (k - 1 - i.1, k - 1 - i.2) hi2
      have he1 : k - 1 - (k - 1 - i.1) = i.1 := by omega
      have he2 : k - 1 - (k - 1 - i.2) = i.2 := by omega
      simpa [he1, he2] using this
    · have hik := (hmem i).mp hi
      have hi2 : (k - 1 - i.1, k - 1 - i.2) ∈ win k := by
        rw [hmem]
        constructor <;> simp <;> omega
      exact h (k - 1 - i.1, k - 1 - i.2) hi2
  have hsum : (∑ i ∈ win k, (F (k - 1 - i.1, k - 1 - i.2)).getD 0) =
      ∑ i ∈ win k, (F i).getD 0 := by
    unfold win
    rw [Finset.sum_product, Finset.sum_product]
    rw [← Finset.sum_range_reflect (fun a => ∑ b ∈ Finset.range k, (F (a, b)).getD 0) k]
    exact Finset.sum_congr rfl (fun a _ =>
      Finset.sum_range_reflect (fun b => (F (k - 1 - a, b)).getD 0) k)
  by_cases h : ∀ i ∈ win k, (F (k - 1 - i.1, k - 1 - i.2)).isSome
  · rw [if_pos h, if_pos (hsome.mp h), hsum]
  · rw [if_neg h, if_neg (fun hg => h (hsome.mpr hg))]

/-- For an odd window the sliced full convolution of `_window_mean` is the
centred window average of the specification. -/
theorem windowMeanAt_eq_spec {α : Type} [LinearOrderedField α]
    (g : ℕ → ℕ → Option α) (h w k : ℕ) (hk : k % 2 = 1) (r c : ℕ) :
    windowMeanAt g h w k r c = specWindowMeanAt g h w k r c := by
  unfold windowMeanAt specWindowMeanAt convFullAt
  congr 1
  rw [← rsum_win_reflect k (fun ab =>
    extGrid g h w ((r : ℤ) - (k / 2 : ℕ) + ab.1) ((c : ℤ) - (k / 2 : ℕ) + ab.2))]
  apply rsum_congr
  intro i hi
  have hik : i.1 < k ∧ i.2 < k := by
    simpa [win, Finset.mem_product] using hi
  have hb : 2 * (k / 2) = k - 1 := by omega
  congr 1 <;> omega

/-- The squared-grid instance of `windowMeanAt_eq_spec`. -/
theorem windowSqMeanAt_eq_spec {α : Type} [LinearOrderedField α]
    (g : ℕ → ℕ → Option α) (h w k : ℕ) (hk : k % 2 = 1) (r c : ℕ) :
    windowSqMeanAt g h w k r c = specWindowSqMeanAt g h w k r c := by
  unfold windowSqMeanAt specWindowSqMeanAt convFullAt
  congr 1
  rw [← rsum_win_reflect k (fun ab =>
    extGrid (fun a b => rMul (g a b) (g a b)) h w
      ((r : ℤ) - (k / 2 : ℕ) + ab.1) ((c : ℤ) - (k / 2 : ℕ) + ab.2))]
  apply rsum_congr
  intro i hi
  have hik : i.1 < k ∧ i.2 < k := by
    simpa [win, Finset.mem_product] using hi
  have hb : 2 * (k / 2) = k - 1 := by omega
  congr 1 <;> omega

/-- The sliced windowed standard deviation is the centred one for odd
windows. -/
theorem windowStdevAt_eq_spec {α : Type} [LinearOrderedField α]
    (ops : NumOps α) (g : ℕ → ℕ → Option α) (h w k : ℕ) (hk : k % 2 = 1)
    (r c : ℕ) :
    windowStdevAt ops g h w k r c = specWindowStdevAt ops g h w k r c := by
  unfold windowStdevAt specWindowStdevAt
  rw [windowMeanAt_eq_spec g h w k hk r c, windowSqMeanAt_eq_spec g h w k hk r c]

/-- The code's zero-defaulted coefficient of variation equals the
specification's for odd windows. -/
theorem leeCiR_eq_spec {α : Type} [LinearOrderedField α] (ops : NumOps α)
    (img : MGrid α) (k : ℕ) (hk : k % 2 = 1) (r c : ℕ) :
    leeCiR ops img k r c = specLeeCiR ops img k r c := by
  unfold leeCiR specLeeCiR leeCi specLeeCi
  rw [windowStdevAt_eq_spec ops (leeMasked img) img.h img.w k hk r c,
    windowMeanAt_eq_spec (leeMasked img) img.h img.w k hk r c]

/-- The three sequential masked assignments of lines 82-86 compute exactly
the three-case weight of the claim, provided `cu < cmax` (which holds for
the real thresholds `sqrt(1/L) < sqrt(1 + 2/L)`). -/
theorem leeWeight_eq_spec {α : Type} [LinearOrderedField α] (ops : NumOps α)
    (img : MGrid α) (k L : ℕ) (hk : k % 2 = 1)
    (hcc : leeCu ops L < leeCmax ops L) (r c : ℕ) :
    leeWeight ops img k L r c = specLeeWeight ops img k L r c := by
  unfold leeWeight specLeeWeight
  rw [leeCiR_eq_spec ops img k hk r c]
  by_cases hA : specLeeCiR ops img k r c ≤ leeCu ops L
  · have hmid : ¬(leeCu ops L < specLeeCiR ops img k r c ∧
        specLeeCiR ops img k r c < leeCmax ops L) :=
      fun hcon => absurd hA (not_le.mpr hcon.1)
    have h2 : ¬(leeCmax ops L ≤ specLeeCiR ops img k r c) := by
      intro hcm; linarith
    rw [if_neg hmid, if_neg h2, if_pos hA, if_pos hA]
  · by_cases hB : leeCmax ops L ≤ specLeeCiR ops img k r c
    · have hmid : ¬(leeCu ops L < specLeeCiR ops img k r c ∧
          specLeeCiR ops img k r c < leeCmax ops L) :=
        fun hcon => absurd hB (not_le.mpr hcon.2)
      rw [if_neg hmid, if_pos hB, if_neg hA, if_pos hB]
    · have hmid : leeCu ops L < specLeeCiR ops img k r c ∧
          specLeeCiR ops img k r c < leeCmax ops L :=
        ⟨not_le.mp hA, not_le.mp hB⟩
      rw [if_pos hmid, if_neg hA, if_neg hB]

/-- Line 88 computes exactly the claim's combination, provided
`cu < cmax`. -/
theorem leeCombineAt_eq_spec {α : Type} [LinearOrderedField α]
    (ops : NumOps α) (img : MGrid α) (k L : ℕ) (hk : k % 2 = 1)
    (hcc : leeCu ops L < leeCmax ops L) (r c : ℕ) :
    leeCombineAt ops img k L r c = specLeeCombineAt ops img k L r c := by
  unfold leeCombineAt specLeeCombineAt
  rw [windowMeanAt_eq_spec (leeMasked img) img.h img.w k hk r c,
    leeWeight_eq_spec ops img k L hk hcc r c]

/-- For an odd window of size at least 3 the windowed outputs have the
input's shape. -/
theorem windowOutDims_odd (h w k : ℕ) (hk : k % 2 = 1) (h3 : 3 ≤ k) :
    windowOutDims h w k = (h, w) := by
  unfold windowOutDims pySliceDim convFullDim
  have hne : ¬ (k / 2 = 0) := by omega
  rw [if_neg hne, if_neg hne]
  have e1 : h + k - 1 - 2 * (k / 2) = h := by omega
  have e2 : w + k - 1 - 2 * (k / 2) = w := by omega
  rw [e1, e2]

/-- For an odd window of size at least 3 the filter takes its success path
and the output is the remasked combination. -/
theorem enhancedLeeFilter_ok {α : Type} [LinearOrderedField α]
    (ops : NumOps α) (img : MGrid α) (k L : ℕ) (hk : k % 2 = 1)
    (h3 : 3 ≤ k) :
    enhancedLeeFilter ops img k L =
      Except.ok
        { h := img.h
          w := img.w
          data := fun r c => some ((leeCombineAt ops img k L r c).getD 0)
          mask := fun r c => (leeCombineAt ops img k L r c).isNone } := by
  unfold enhancedLeeFilter
  rw [windowOutDims_odd img.h img.w k hk h3]
  simp [hk, bcastDim]

/-- A NaN-propagating sum with a NaN summand is NaN. -/
theorem rsum_eq_none {α : Type} [LinearOrderedField α] {ι : Type}
    [DecidableEq ι] {s : Finset ι} {f : ι → Option α} (i : ι) (hi : i ∈ s)
    (hfi : f i = none) : rsum s f = none := by
  unfold rsum
  rw [if_neg]
  intro h
  have := h i hi
  rw [hfi] at this
  simp at this

/-- The symmetric reflection always lands inside a nonempty axis. -/
theorem reflectIdx_lt (n : ℕ) (hn : 0 < n) (i : ℤ) : reflectIdx n i < n := by
  unfold reflectIdx
  rw [if_neg (by omega)]
  have h1 : 0 ≤ i % (2 * (n : ℤ)) := Int.emod_nonneg i (by omega)
  have h2 : i % (2 * (n : ℤ)) < 2 * (n : ℤ) := Int.emod_lt_of_pos i (by omega)
  split_ifs with h <;> omega

/-- On an input whose mask is set everywhere in range, every pixel of the
combined output is NaN. -/
theorem leeCombineAt_none_of_allMasked {α : Type} [LinearOrderedField α]
    (ops : NumOps α) (img : MGrid α) (k L : ℕ) (hk1 : 1 ≤ k)
    (hm : ∀ r c, r < img.h → c < img.w → img.mask r c = true)
    (r c : ℕ) (hr : r < img.h) (hc : c < img.w) :
    leeCombineAt ops img k L r c = none := by
  have hh : 0 < img.h := by omega
  have hw : 0 < img.w := by omega
  have hmean : windowMeanAt (leeMasked img) img.h img.w k r c = none := by
    unfold windowMeanAt convFullAt
    rw [rsum_eq_none ((0 : ℕ), (0 : ℕ))
      (by simp [win, Finset.mem_product]; omega)
      (by
        unfold extGrid leeMasked
        rw [hm _ _ (reflectIdx_lt img.h hh _) (reflectIdx_lt img.w hw _)]
        simp)]
    rfl
  unfold leeCombineAt
  rw [hmean]
  rfl

/-- Dilation only grows the set of `true` pixels. -/
theorem dilateN_extensive (H W : ℤ) (n : ℕ) (f : ℤ → ℤ → Bool) (r c : ℤ)
    (hb : 0 ≤ r ∧ r < H ∧ 0 ≤ c ∧ c < W) (hf : f r c = true) :
    dilateN H W n f r c = true := by
  induction n with
  | zero => exact hf
  | succ n ih =>
      unfold dilateN dilate1
      simp only [ih, Bool.true_or, Bool.or_true, Bool.and_true]
      simpa using hb

/-- Python truncation of a nonnegative quantity is the floor. -/
theorem pyTrunc_of_nonneg {q : ℚ} (h : 0 ≤ q) : pyTrunc q = Int.floor q :=
  if_pos h

/-- Python truncation of a negative quantity is the ceiling. -/
theorem pyTrunc_of_neg {q : ℚ} (h : q < 0) : pyTrunc q = Int.ceil q :=
  if_neg (not_le.mpr h)

/-- Truncation commutes with adding a natural number on nonnegative
quantities. -/
theorem pyTrunc_add_nat (q : ℚ) (n : ℕ) (h : 0 ≤ q) :
    pyTrunc (q + n) = pyTrunc q + n := by
  rw [pyTrunc_of_nonneg (by positivity), pyTrunc_of_nonneg h,
    Int.floor_add_nat q n]

/-- Rounding a natural number returns it. -/
theorem pyRound_natCast (n : ℕ) : pyRound (n : ℚ) = n := by
  unfold pyRound
  rw [if_pos (by positivity)]
  rw [Int.floor_eq_iff]
  push_cast
  constructor <;> [linarith; linarith]

/-- C2 (amended): coordinate mapping computes
`pixel = int((x - (originX - b)) / pixelWidth)` and
`line = int((y - (originY + b)) / pixelHeight)` with Python `int`
truncation toward zero; this agrees with the claimed floor exactly when
the corresponding quotient is nonnegative, and is the ceiling when the
quotient is negative. -/
theorem C2_world2Pixel_trunc (geo : GeoT) (x y b : ℚ) :
    world2Pixel geo x y b =
      (pyTrunc ((x - (geo.a0 - b)) / geo.a1),
        pyTrunc ((y - (geo.a3 + b)) / geo.a5)) ∧
    (0 ≤ (x - (geo.a0 - b)) / geo.a1 →
      (world2Pixel geo x y b).1 = Int.floor ((x - (geo.a0 - b)) / geo.a1)) ∧
    ((x - (geo.a0 - b)) / geo.a1 < 0 →
      (world2Pixel geo x y b).1 = Int.ceil ((x - (geo.a0 - b)) / geo.a1)) ∧
    (0 ≤ (y - (geo.a3 + b)) / geo.a5 →
      (world2Pixel geo x y b).2 = Int.floor ((y - (geo.a3 + b)) / geo.a5)) ∧
    ((y - (geo.a3 + b)) / geo.a5 < 0 →
      (world2Pixel geo x y b).2 = Int.ceil ((y - (geo.a3 + b)) / geo.a5)) :=
  ⟨rfl, fun h => pyTrunc_of_nonneg h, fun h => pyTrunc_of_neg h,
    fun h => pyTrunc_of_nonneg h, fun h => pyTrunc_of_neg h⟩

/-- Instance of `C2_world2Pixel_trunc` at a concrete in-tile point, where
truncation and floor agree. -/
theorem C2_world2Pixel_trunc_inst :
    (world2Pixel demoGeo (3 / 2) (-5 / 2) 0).1 =
      Int.floor (((3 / 2 : ℚ) - (demoGeo.a0 - 0)) / demoGeo.a1) :=
  (C2_world2Pixel_trunc demoGeo (3 / 2) (-5 / 2) 0).2.1
    (by norm_num [demoGeo])

/-- Counterexample to C2 as stated: at the map point `(-1/2, 1/2)` both
quotients are `-1/2`; the code returns `(0, 0)` (truncation toward zero)
while the claimed floor semantics would give `(-1, -1)`. -/
theorem C2_floor_fails_at_negative :
    world2Pixel demoGeo (-1 / 2) (1 / 2) 0 = (0, 0) ∧
      (Int.floor (((-1 / 2 : ℚ) - (demoGeo.a0 - 0)) / demoGeo.a1),
        Int.floor (((1 / 2 : ℚ) - (demoGeo.a3 + 0)) / demoGeo.a5)) =
        (-1, -1) ∧
      ((0 : ℤ), (0 : ℤ)) ≠ ((-1 : ℤ), (-1 : ℤ)) := by
  refine ⟨?_, ?_, by decide⟩
  · norm_num [world2Pixel, pyTrunc, demoGeo]
  · norm_num [demoGeo]

/-- C4: the year validation accepts exactly 2007-2010 and 2015-present
(the lat/lon asserts never fire, so the validation outcome is the year
check), and accepted years select ALOS-2 from 2015 on and ALOS-1 below. -/
theorem C4_year_validation (lat lon year current : ℤ) :
    (alosValidate lat lon year current = Except.ok () ↔
      ((2007 ≤ year ∧ year ≤ 2010) ∨ (2015 ≤ year ∧ year ≤ current))) ∧
    (2015 ≤ year → getSatellite year = "ALOS-2") ∧
    (year < 2015 → getSatellite year = "ALOS-1") := by
  refine ⟨?_, fun hy => if_pos hy, fun hy => if_neg (by omega)⟩
  have hlat : latCheck lat = true := by
    simp only [latCheck, Bool.or_eq_true, decide_eq_true_eq]
    omega
  have hlon : lonCheck lon = true := by
    simp only [lonCheck, Bool.or_eq_true, decide_eq_true_eq]
    omega
  unfold alosValidate
  rw [hlat, hlon]
  simp only [Bool.true_eq_false, if_false]
  by_cases hy : (2007 ≤ year ∧ year ≤ 2010) ∨ (2015 ≤ year ∧ year ≤ current)
  · have hyc : yearCheck year current = true := by
      simp only [yearCheck, Bool.or_eq_true, Bool.and_eq_true,
        decide_eq_true_eq]
      omega
    rw [hyc]
    simp [hy]
  · have hyc : yearCheck year current = false := by
      simp only [yearCheck, Bool.or_eq_false_iff, Bool.and_eq_false_iff,
        decide_eq_false_iff_not]
      omega
    rw [hyc]
    simp [hy]

/-- Instance of `C4_year_validation`: 2016 is accepted and selects ALOS-2,
2008 selects ALOS-1, and 2012 is rejected. -/
theorem C4_year_validation_inst :
    alosValidate (-18) 33 2016 2025 = Except.ok () ∧
      getSatellite 2016 = "ALOS-2" ∧ getSatellite 2008 = "ALOS-1" ∧
      alosValidate (-18) 33 2012 2025 ≠ Except.ok () :=
  ⟨(C4_year_validation (-18) 33 2016 2025).1.mpr (by omega),
    (C4_year_validation (-18) 33 2016 2025).2.1 (by omega),
    (C4_year_validation (-18) 33 2008 2025).2.2 (by omega),
    fun h => by
      have := (C4_year_validation (-18) 33 2012 2025).1.mp h
      omega⟩

/-- C5: on a non-square tile with `xSize = 2` (raster width) and
`ySize = 3` (raster height), the mask returned by the rasterization
bookkeeping has shape `(2, 3)` while the tile's own arrays have shape
`(ySize, xSize) = (3, 2)` — the canvas is built with the sizes swapped
(line 669), so the returned mask is transposed relative to the tile's
arrays whenever the tile is not square. -/
theorem C5_mask_shape_transposed :
    rasterMaskShape 2 3 1 = (2, 3) ∧ tileArrayShape 2 3 = (3, 2) ∧
      rasterMaskShape 2 3 1 ≠ tileArrayShape 2 3 := by
  decide

/-- C9: the latitude/longitude range asserts of `ALOS.__init__` are
tautologies (`lat < 90 or lat > -90` holds for every integer), so an
out-of-range latitude 91 and longitude 200 pass validation instead of
failing with an InvalidArgument error. -/
theorem C9_latlon_check_tautology :
    alosValidate 91 200 2008 2025 = Except.ok () := by
  rfl

/-- A NaN-free sum evaluates to the exact sum. -/
theorem rsum_some {α : Type} [LinearOrderedField α] {ι : Type}
    [DecidableEq ι] (s : Finset ι) (f : ι → α) :
    rsum s (fun i => some (f i)) = some (∑ i ∈ s, f i) := by
  unfold rsum
  split_ifs with hc
  · simp
  · exact absurd (fun i _ => rfl) hc

/-- C8 (amended): for every odd window size of at least 3 the windowed
outputs have exactly the input's shape, the oddness assert passes, and the
symmetric boundary extension preserves constant grids (each window average
is the constant).  Window size 1 instead produces an empty output (see the
counterexample), and negative odd sizes pass the oddness assert. -/
theorem C8_window_dims_odd_ge_three {α : Type} [LinearOrderedField α]
    (h w k : ℕ) (hk : k % 2 = 1) (h3 : 3 ≤ k) :
    windowOutDims h w k = (h, w) ∧ windowSizeCheckZ (k : ℤ) = true ∧
      (∀ (v : α) (r c : ℕ),
        windowMeanAt (fun _ _ => some v) h w k r c = some v) := by
  refine ⟨windowOutDims_odd h w k hk h3, ?_, ?_⟩
  · simp only [windowSizeCheckZ, decide_eq_true_eq]
    omega
  · intro v r c
    have hk0 : ((k : α) * k) ≠ 0 := by
      have hkz : (k : α) ≠ 0 := Nat.cast_ne_zero.mpr (by omega)
      exact mul_ne_zero hkz hkz
    have hcard : (win k).card = k * k := by
      simp [win]
    have hsum : rsum (win k)
        (fun ab => extGrid (fun _ _ => some v) h w
          (((r : ℤ) + (k / 2 : ℕ)) - ab.1) (((c : ℤ) + (k / 2 : ℕ)) - ab.2)) =
        some (∑ _ab ∈ win k, v) := rsum_some (win k) (fun _ => v)
    unfold windowMeanAt convFullAt
    rw [hsum, Finset.sum_const, hcard]
    show some ((k * k : ℕ) • v * (1 / ((k : α) * k))) = some v
    congr 1
    rw [nsmul_eq_mul]
    push_cast
    field_simp

/-- Instance of `C8_window_dims_odd_ge_three` on a 2 × 2 grid with window
size 3. -/
theorem C8_window_dims_odd_ge_three_inst :
    windowOutDims 2 2 3 = (2, 2) ∧
      windowMeanAt (fun _ _ => some (5 : ℚ)) 2 2 3 0 0 = some 5 :=
  ⟨(C8_window_dims_odd_ge_three (α := ℚ) 2 2 3 (by decide) (by decide)).1,
    (C8_window_dims_odd_ge_three 2 2 3 (by decide) (by decide)).2.2 5 0 0⟩

/-- Counterexample to C8 as stated: window size 1 is a positive odd
integer and passes the oddness assert, but the `[0:-0]` slice makes the
windowed outputs empty (`(0, 0)` instead of the input shape `(2, 2)`);
moreover the negative odd size `-3` also passes the oddness assert
(`-3 % 2 == 1` in Python) instead of failing validation. -/
theorem C8_window_one_empty_output :
    windowSizeCheckZ 1 = true ∧ windowOutDims 2 2 1 = (0, 0) ∧
      windowOutDims 2 2 1 ≠ (2, 2) ∧ windowSizeCheckZ (-3) = true := by
  decide

/-- The kernel window has `k * k` entries. -/
theorem win_card (k : ℕ) : (win k).card = k * k := by
  simp [win]

/-- Counterexample to C3 as stated: `_window_stdev` applied to a grid
holding a non-finite value (exactly what `enhanced_lee_filter` feeds it
after replacing masked pixels by NaN) returns NaN, and the code contains
no clamping step that could prevent it. -/
theorem C3_stdev_nan_on_nan_input :
    windowStdevAt ratOps (fun _ _ => (none : Option ℚ)) 1 1 3 0 0 = none := by
  have hmean : windowMeanAt (fun _ _ => (none : Option ℚ)) 1 1 3 0 0 = none := by
    unfold windowMeanAt convFullAt
    rw [rsum_eq_none ((0 : ℕ), (0 : ℕ)) (by decide) rfl]
    rfl
  have hsq : windowSqMeanAt (fun _ _ => (none : Option ℚ)) 1 1 3 0 0 = none := by
    unfold windowSqMeanAt convFullAt
    rw [rsum_eq_none ((0 : ℕ), (0 : ℕ)) (by decide) rfl]
    rfl
  unfold windowStdevAt
  rw [hmean, hsq]
  rfl

/-- C3 (amended): on a grid of finite values the windowed standard
deviation is, in exact arithmetic, a finite nonnegative number: the window
variance `E[x²] - E[x]²` is nonnegative by the Cauchy-Schwarz inequality,
so the unclamped square root neither receives a negative argument nor
returns NaN.  (No clamping is performed by the code; under floating-point
rounding, or on grids containing non-finite values, the bound does not
survive — see the counterexample.) -/
theorem C3_stdev_nonneg_exact {α : Type} [LinearOrderedField α]
    (ops : NumOps α) (hsqrt : ∀ x : α, 0 ≤ x → 0 ≤ ops.fsqrt x)
    (g : ℕ → ℕ → α) (h w k : ℕ) (hk : 1 ≤ k) (r c : ℕ) :
    ∃ v, windowStdevAt ops (fun a b => some (g a b)) h w k r c = some v ∧
      0 ≤ v := by
  set vals : ℕ × ℕ → α := fun ab =>
    g (reflectIdx h (((r : ℤ) + (k / 2 : ℕ)) - ab.1))
      (reflectIdx w (((c : ℤ) + (k / 2 : ℕ)) - ab.2)) with hvals
  have hs1 : windowMeanAt (fun a b => some (g a b)) h w k r c =
      some ((∑ ab ∈ win k, vals ab) * (1 / ((k : α) * k))) := by
    show rMul (rsum (win k) (fun ab => some (vals ab)))
        (some (1 / ((k : α) * k))) = _
    rw [rsum_some]
    rfl
  have hs2 : windowSqMeanAt (fun a b => some (g a b)) h w k r c =
      some ((∑ ab ∈ win k, vals ab * vals ab) * (1 / ((k : α) * k))) := by
    show rMul (rsum (win k) (fun ab => some (vals ab * vals ab)))
        (some (1 / ((k : α) * k))) = _
    rw [rsum_some]
    rfl
  have hNpos : (0 : α) < (k : α) * k := by
    have hkpos : (0 : α) < k := by
      exact_mod_cast Nat.pos_of_ne_zero (by omega)
    positivity
  have hCS : (∑ ab ∈ win k, vals ab) ^ 2 ≤
      ((k : α) * k) * ∑ ab ∈ win k, vals ab * vals ab := by
    have hbase := sq_sum_le_card_mul_sum_sq (s := win k) (f := vals)
    rw [win_card] at hbase
    have hsq : (∑ ab ∈ win k, vals ab ^ 2) =
        ∑ ab ∈ win k, vals ab * vals ab :=
      Finset.sum_congr rfl (fun i _ => sq (vals i))
    rw [hsq] at hbase
    calc (∑ ab ∈ win k, vals ab) ^ 2 ≤
        ((k * k : ℕ) : α) * ∑ ab ∈ win k, vals ab * vals ab := hbase
      _ = ((k : α) * k) * ∑ ab ∈ win k, vals ab * vals ab := by
          push_cast
          ring
  have hvar : 0 ≤ (∑ ab ∈ win k, vals ab * vals ab) * (1 / ((k : α) * k)) -
      ((∑ ab ∈ win k, vals ab) * (1 / ((k : α) * k))) *
        ((∑ ab ∈ win k, vals ab) * (1 / ((k : α) * k))) := by
    have heq : (∑ ab ∈ win k, vals ab * vals ab) * (1 / ((k : α) * k)) -
        ((∑ ab ∈ win k, vals ab) * (1 / ((k : α) * k))) *
          ((∑ ab ∈ win k, vals ab) * (1 / ((k : α) * k))) =
        (((k : α) * k) * (∑ ab ∈ win k, vals ab * vals ab) -
          (∑ ab ∈ win k, vals ab) ^ 2) / (((k : α) * k) * ((k : α) * k)) := by
      field_simp
      ring
    rw [heq]
    apply div_nonneg
    · linarith
    · positivity
  refine ⟨ops.fsqrt ((∑ ab ∈ win k, vals ab * vals ab) * (1 / ((k : α) * k)) -
    ((∑ ab ∈ win k, vals ab) * (1 / ((k : α) * k))) *
      ((∑ ab ∈ win k, vals ab) * (1 / ((k : α) * k)))), ?_, hsqrt _ hvar⟩
  unfold windowStdevAt
  rw [hs1, hs2]
  show (if (∑ ab ∈ win k, vals ab * vals ab) * (1 / ((k : α) * k)) -
      ((∑ ab ∈ win k, vals ab) * (1 / ((k : α) * k))) *
        ((∑ ab ∈ win k, vals ab) * (1 / ((k : α) * k))) < 0 then none
    else some (ops.fsqrt _)) = _
  rw [if_neg (not_lt.mpr hvar)]

/-- Instance of `C3_stdev_nonneg_exact` on a concrete finite grid. -/
theorem C3_stdev_nonneg_exact_inst :
    ∃ v, windowStdevAt ratOps (fun a b => some ((a : ℚ) + b)) 2 2 3 0 0 =
      some v ∧ 0 ≤ v :=
  C3_stdev_nonneg_exact ratOps (fun x hx => hx) (fun a b => (a : ℚ) + b)
    2 2 3 (by decide) 0 0

/-- C1 (amended): for every masked grid, look count, and odd window size of
at least 3, the filter succeeds, computes the per-pixel weight exactly as
the claim's three-case formula over the centred-window coefficient of
variation (non-finite values replaced by 0), and every output pixel is the
combination `mu * w + original * (1 - w)`, remasked and stored as 0 where
that combination is non-finite.  The hypothesis `cu < cmax` records the
fact `sqrt(1/L) < sqrt(1 + 2/L)` about the real square root. -/
theorem C1_lee_filter_formula {α : Type} [LinearOrderedField α]
    (ops : NumOps α) (img : MGrid α) (k L : ℕ) (hk : k % 2 = 1)
    (h3 : 3 ≤ k) (hcc : leeCu ops L < leeCmax ops L) :
    (∀ r c, leeWeight ops img k L r c = specLeeWeight ops img k L r c) ∧
    ∃ out, enhancedLeeFilter ops img k L = Except.ok out ∧
      out.h = img.h ∧ out.w = img.w ∧
      (∀ r c, out.mask r c = (specLeeCombineAt ops img k L r c).isNone ∧
        out.data r c = some ((specLeeCombineAt ops img k L r c).getD 0)) := by
  refine ⟨fun r c => leeWeight_eq_spec ops img k L hk hcc r c, ?_⟩
  refine ⟨_, enhancedLeeFilter_ok ops img k L hk h3, rfl, rfl, ?_⟩
  intro r c
  constructor
  · show (leeCombineAt ops img k L r c).isNone = _
    rw [leeCombineAt_eq_spec ops img k L hk hcc r c]
  · show some ((leeCombineAt ops img k L r c).getD 0) = _
    rw [leeCombineAt_eq_spec ops img k L hk hcc r c]

/-- Instance of `C1_lee_filter_formula` on a concrete 1 × 1 tile with the
default window size 3 and 16 looks. -/
theorem C1_lee_filter_formula_inst :
    leeWeight ratOps demoImg1 3 16 0 0 =
      specLeeWeight ratOps demoImg1 3 16 0 0 ∧
    (enhancedLeeFilter ratOps demoImg1 3 16).isOk = true := by
  have hcc : leeCu ratOps 16 < leeCmax ratOps 16 := by
    norm_num [leeCu, leeCmax, ratOps]
  have hmain := C1_lee_filter_formula ratOps demoImg1 3 16 (by decide)
    (by decide) hcc
  refine ⟨hmain.1 0 0, ?_⟩
  obtain ⟨out, hok, _, _, _⟩ := hmain.2
  rw [hok]
  rfl

/-- Counterexample to C1 as stated: the window size 1 is odd, yet on a
2 × 2 grid the filter raises a broadcast error (the `[0:-0]` slice makes
the windowed arrays empty, and line 88 cannot combine an empty array with
the 2 × 2 input), so no output pixel is computed at all. -/
theorem C1_window_one_errors :
    (enhancedLeeFilter ratOps demoImg22 1 16).isOk = false := by
  rfl

/-- C10: lines 70-71 alias the input's data buffer and overwrite every
masked position with NaN in place; `leeMasked` is the caller-visible state
of `img.data` after the call.  Masked in-range positions hold NaN
afterwards (so a masked position that held a finite value has been
changed), and unmasked positions are untouched. -/
theorem C10_filter_mutates_input {α : Type} [LinearOrderedField α]
    (img : MGrid α) (r c : ℕ) (hr : r < img.h) (hc : c < img.w) :
    (img.mask r c = true → leeMasked img r c = none) ∧
    (img.mask r c = false → leeMasked img r c = img.data r c) ∧
    (img.mask r c = true → (img.data r c).isSome = true →
      leeMasked img r c ≠ img.data r c) := by
  refine ⟨fun hm => by simp [leeMasked, hm], fun hm => by simp [leeMasked, hm],
    fun hm hs => ?_⟩
  rw [show leeMasked img r c = none from by simp [leeMasked, hm]]
  intro heq
  rw [← heq] at hs
  simp at hs

/-- Instance of `C10_filter_mutates_input`: the masked pixel of a concrete
tile is overwritten with the NaN sentinel, differing from its stored
value. -/
theorem C10_filter_mutates_input_inst :
    leeMasked demoImgMasked 0 0 = none ∧
      leeMasked demoImgMasked 0 0 ≠ demoImgMasked.data 0 0 :=
  ⟨(C10_filter_mutates_input demoImgMasked 0 0 (by decide) (by decide)).1 rfl,
    (C10_filter_mutates_input demoImgMasked 0 0 (by decide) (by decide)).2.2
      rfl rfl⟩

/-- On an all-masked input the filter succeeds and every in-range output
pixel is masked with stored value 0: every window contains a NaN, so every
combined value is non-finite and is remasked and zeroed by lines 90-92. -/
theorem lee_output_all_masked {α : Type} [LinearOrderedField α]
    (ops : NumOps α) (img : MGrid α) (L : ℕ)
    (hm : ∀ r c, r < img.h → c < img.w → img.mask r c = true) :
    ∃ out, enhancedLeeFilter ops img 3 L = Except.ok out ∧
      out.h = img.h ∧ out.w = img.w ∧
      ∀ r c, r < out.h → c < out.w →
        out.mask r c = true ∧ out.data r c = some 0 := by
  refine ⟨_, enhancedLeeFilter_ok ops img 3 L (by decide) (by decide),
    rfl, rfl, ?_⟩
  intro r c hr hc
  have hnone := leeCombineAt_none_of_allMasked ops img 3 L (by decide) hm
    r c hr hc
  constructor
  · show (leeCombineAt ops img 3 L r c).isNone = true
    rw [hnone]
    rfl
  · show some ((leeCombineAt ops img 3 L r c).getD 0) = some 0
    rw [hnone]
    rfl

/-- C7: on input whose validity mask marks every in-range pixel invalid,
the enhanced Lee filter raises no error and returns an output that is
entirely masked with all stored values 0; and end-to-end, `getAGB` (with
or without the filter) on such a tile returns an array that is entirely
masked with all stored values 0. -/
theorem C7_all_masked_zero {α : Type} [LinearOrderedField α]
    (ops : NumOps α) (img : MGrid α)
    (hm : ∀ r c, r < img.h → c < img.w → img.mask r c = true) (lf : Bool) :
    (∃ out, enhancedLeeFilter ops img 3 16 = Except.ok out ∧
      out.h = img.h ∧ out.w = img.w ∧
      ∀ r c, r < out.h → c < out.w →
        out.mask r c = true ∧ out.data r c = some 0) ∧
    (∃ A, getAGB ops img lf = Except.ok A ∧ A.h = img.h ∧ A.w = img.w ∧
      ∀ r c, r < A.h → c < A.w →
        A.mask r c = true ∧ A.data r c = some 0) := by
  refine ⟨lee_output_all_masked ops img 16 hm, ?_⟩
  have hgm : ∀ r c, r < (gamma0dB ops img).h → c < (gamma0dB ops img).w →
      (gamma0dB ops img).mask r c = true := by
    intro r c hr hc
    show (img.mask r c || _) = true
    rw [hm r c hr hc]
    rfl
  have hgamma : ∃ g1, getGamma0Natural ops img lf = Except.ok g1 ∧
      g1.h = img.h ∧ g1.w = img.w ∧
      ∀ r c, r < img.h → c < img.w → g1.mask r c = true := by
    cases lf with
    | false =>
        refine ⟨_, rfl, rfl, rfl, ?_⟩
        intro r c hr hc
        show (gamma0dB ops img).mask r c = true
        exact hgm r c hr hc
    | true =>
        obtain ⟨out, hok, hh, hw, hprop⟩ :=
          lee_output_all_masked ops (gamma0dB ops img) 16 hgm
        refine ⟨tidyData img.mask (toNaturalUnits ops out), ?_, ?_, ?_, ?_⟩
        · show (enhancedLeeFilter ops (gamma0dB ops img) 3 16).map _ = _
          rw [hok]
          rfl
        · show out.h = img.h
          exact hh
        · show out.w = img.w
          exact hw
        · intro r c hr hc
          show out.mask r c = true
          exact (hprop r c (by rw [hh]; exact hr) (by rw [hw]; exact hc)).1
  obtain ⟨g1, hg1ok, hg1h, hg1w, hg1mask⟩ := hgamma
  refine ⟨tidyData img.mask
    { h := g1.h
      w := g1.w
      data := fun r c =>
        rSub (rMul (some (715667 / 1000)) (g1.data r c)) (some (5967 / 1000))
      mask := g1.mask }, ?_, ?_, ?_, ?_⟩
  · show (getGamma0Natural ops img lf).map _ = _
    rw [hg1ok]
    rfl
  · show g1.h = img.h
    exact hg1h
  · show g1.w = img.w
    exact hg1w
  · intro r c hr hc
    have hr2 : r < img.h := by rw [← hg1h]; exact hr
    have hc2 : c < img.w := by rw [← hg1w]; exact hc
    constructor
    · show g1.mask r c = true
      exact hg1mask r c hr2 hc2
    · show (if img.mask r c then some 0 else _) = some (0 : α)
      rw [hm r c hr2 hc2]
      simp

/-- Instance of `C7_all_masked_zero` on a concrete fully masked 1 × 1 tile
with the Lee filter enabled. -/
theorem C7_all_masked_zero_inst :
    (∃ out, enhancedLeeFilter ratOps demoImgMasked 3 16 = Except.ok out ∧
      out.h = demoImgMasked.h ∧ out.w = demoImgMasked.w ∧
      ∀ r c, r < out.h → c < out.w →
        out.mask r c = true ∧ out.data r c = some 0) ∧
    (∃ A, getAGB ratOps demoImgMasked true = Except.ok A ∧
      A.h = demoImgMasked.h ∧ A.w = demoImgMasked.w ∧
      ∀ r c, r < A.h → c < A.w →
        A.mask r c = true ∧ A.data r c = some 0) :=
  C7_all_masked_zero ratOps demoImgMasked (fun _ _ _ _ => rfl) true

/-- A zero buffer size yields zero buffer pixels. -/
theorem bufferPx_zero (geo : GeoT) : bufferPx geo 0 = 0 := by
  unfold bufferPx pyRound
  norm_num

/-- A buffer that is an exact natural multiple of the pixel width rounds to
that multiple. -/
theorem bufferPx_int_mult (geo : GeoT) (n : ℕ) (ha1 : geo.a1 ≠ 0) :
    bufferPx geo ((n : ℚ) * geo.a1) = n := by
  unfold bufferPx
  rw [mul_div_assoc, div_self ha1, mul_one, pyRound_natCast]
  exact Int.toNat_natCast n

/-- The cropped mask always has `xSize` rows and `ySize` columns. -/
theorem rasterMaskShape_eq (x y b : ℕ) : rasterMaskShape x y b = (x, y) := by
  unfold rasterMaskShape cropShape maskShapePreCrop canvasSizePIL
  simp


/-- Shifting the map origin left by `m` pixel widths shifts the pixel
quotient by exactly `m`. -/
theorem div_shift_x (x y d m : ℚ) (hd : d ≠ 0) :
    (x - (y - m * d)) / d = (x - (y - 0)) / d + m := by
  have e1 : x - (y - m * d) = (x - (y - 0)) + m * d := by ring
  rw [e1, add_div, mul_div_cancel_right₀ m hd]

/-- Shifting the map origin up by `m` pixel widths shifts the line
quotient by exactly `m` when the pixel height is the negated width. -/
theorem div_shift_y (x y d m : ℚ) (hd : d ≠ 0) :
    (x - (y + m * d)) / (-d) = (x - (y + 0)) / (-d) + m := by
  have e1 : x - (y + m * d) = (x - (y + 0)) + m * (-d) := by ring
  rw [e1, add_div, mul_div_cancel_right₀ m (neg_ne_zero.mpr hd)]

/-- Rewriting a quotient by a negated pixel height. -/
theorem div_negden (x y d : ℚ) : (x - (y + 0)) / (-d) = (y - x) / d := by
  rw [div_neg, ← neg_div]
  congr 1
  ring

/-- C6 (amended): for point-like shapes (each drawn by the degenerate
polyline branch), a square-pixel geotransform (`pixelHeight =
-pixelWidth < 0`), a buffer that is an exact natural multiple `n` of the
pixel width, and shapes lying at least the buffer distance inside the
tile's top and bottom edges (the bounding-box prefilter of lines 699-700
adds the buffer with the wrong sign there and so narrows the kept vertical
band), every pixel that is True in the unbuffered mask is True in the
buffered mask: drawn positions shift by exactly `(n, n)` on the padded
canvas, the crop shifts them back, and dilation only adds pixels. -/
theorem C6_buffer_superset_integer_shift (geo : GeoT) (xSize ySize : ℕ)
    (bs : ℚ) (n : ℕ) (ha1 : 0 < geo.a1) (ha5 : geo.a5 = -geo.a1)
    (hbs : bs = (n : ℚ) * geo.a1) (shapes : List (ℚ × ℚ))
    (hpts : ∀ p ∈ shapes,
      geo.a3 + geo.a5 * (xSize : ℚ) + bs ≤ p.2 ∧ p.2 ≤ geo.a3 - bs)
    (r c : ℤ)
    (hun : rasterizeShapefileModel geo xSize ySize 0 shapes r c = true) :
    rasterizeShapefileModel geo xSize ySize bs shapes r c = true := by
  have ha1' : geo.a1 ≠ 0 := ne_of_gt ha1
  have hbn : bufferPx geo bs = n := by
    rw [hbs]
    exact bufferPx_int_mult geo n ha1'
  have hbsnn : 0 ≤ bs := by
    rw [hbs]
    positivity
  unfold rasterizeShapefileModel at hun
  simp only [bufferPx_zero, rasterMaskShape_eq, lt_self_iff_false, if_false,
    Nat.cast_zero, add_zero, Bool.and_eq_true, decide_eq_true_eq] at hun
  obtain ⟨⟨hr0, hrx, hc0, hcy⟩, hdrawn⟩ := hun
  unfold drawnCanvas at hdrawn
  simp only [bufferPx_zero, decide_eq_true_eq] at hdrawn
  obtain ⟨-, -, -, -, p, hp, hkept0, hw2p0⟩ := hdrawn
  unfold world2Pixel at hw2p0
  rw [Prod.mk.injEq] at hw2p0
  obtain ⟨hx0, hy0⟩ := hw2p0
  obtain ⟨hk1, hk2, hk3, hk4⟩ := hkept0
  have hqx : (0 : ℚ) ≤ (p.1 - (geo.a0 - 0)) / geo.a1 := by
    apply div_nonneg _ (le_of_lt ha1)
    linarith
  have hqy : (0 : ℚ) ≤ (p.2 - (geo.a3 + 0)) / geo.a5 := by
    rw [ha5, div_negden]
    apply div_nonneg _ (le_of_lt ha1)
    linarith
  have hshiftx : (p.1 - (geo.a0 - bs)) / geo.a1 =
      (p.1 - (geo.a0 - 0)) / geo.a1 + n := by
    rw [hbs]
    exact div_shift_x p.1 geo.a0 geo.a1 (n : ℚ) ha1'
  have hshifty : (p.2 - (geo.a3 + bs)) / geo.a5 =
      (p.2 - (geo.a3 + 0)) / geo.a5 + n := by
    rw [hbs, ha5]
    exact div_shift_y p.2 geo.a3 geo.a1 (n : ℚ) ha1'
  have hpx : pyTrunc ((p.1 - (geo.a0 - bs)) / geo.a1) = c + n := by
    rw [hshiftx, pyTrunc_add_nat _ n hqx, hx0]
  have hpy : pyTrunc ((p.2 - (geo.a3 + bs)) / geo.a5) = r + n := by
    rw [hshifty, pyTrunc_add_nat _ n hqy, hy0]
  have hkept : shapeKept geo xSize ySize bs p := by
    obtain ⟨hp1, hp2⟩ := hpts p hp
    exact ⟨by linarith, by linarith, hp1, hp2⟩
  have hdrawnb : drawnCanvas geo xSize ySize bs shapes (r + n) (c + n) =
      true := by
    unfold drawnCanvas
    rw [hbn, decide_eq_true_eq]
    refine ⟨by omega, ?_, by omega, ?_, p, hp, hkept, ?_⟩
    · simp only [canvasSizePIL]
      push_cast
      omega
    · simp only [canvasSizePIL]
      push_cast
      omega
    · unfold world2Pixel
      rw [Prod.mk.injEq]
      exact ⟨hpx, hpy⟩
  unfold rasterizeShapefileModel
  rw [hbn, rasterMaskShape_eq, Bool.and_eq_true]
  refine ⟨by rw [decide_eq_true_eq]; exact ⟨hr0, hrx, hc0, hcy⟩, ?_⟩
  by_cases hn : 0 < n
  · rw [if_pos hn]
    apply dilateN_extensive _ _ _ _ _ _ _ hdrawnb
    refine ⟨by omega, ?_, by omega, ?_⟩
    · simp only [canvasSizePIL]
      push_cast
      omega
    · simp only [canvasSizePIL]
      push_cast
      omega
  · rw [if_neg hn]
    exact hdrawnb

/-- Dilating a canvas with no `true` pixel leaves it empty. -/
theorem dilateN_false (H W : ℤ) (m : ℕ) (f : ℤ → ℤ → Bool)
    (hf : ∀ a b, f a b = false) : ∀ a b, dilateN H W m f a b = false := by
  induction m with
  | zero => exact hf
  | succ m ih =>
      intro a b
      unfold dilateN dilate1
      rw [ih, ih, ih, ih, ih]
      simp

/-- With no buffer, the shape at `(1/2, -7/10)` of the counterexample is
drawn at pixel `(0, 0)` of a 6 × 6 tile with unit square pixels. -/
theorem C6_unbuffered_point_drawn :
    rasterizeShapefileModel demoGeo 6 6 0 [((1 : ℚ) / 2, -7 / 10)] 0 0 =
      true := by
  unfold rasterizeShapefileModel
  simp only [bufferPx_zero, rasterMaskShape_eq, lt_self_iff_false, if_false,
    Nat.cast_zero, add_zero, Bool.and_eq_true]
  constructor
  · rw [decide_eq_true_eq]
    norm_num
  · unfold drawnCanvas
    simp only [bufferPx_zero]
    rw [decide_eq_true_eq]
    refine ⟨by norm_num, ?_, by norm_num, ?_,
      ⟨((1 : ℚ) / 2, -7 / 10), by simp, ?_, ?_⟩⟩
    · simp [canvasSizePIL]
    · simp [canvasSizePIL]
    · exact ⟨by norm_num [demoGeo], by norm_num [demoGeo],
        by norm_num [demoGeo], by norm_num [demoGeo]⟩
    · unfold world2Pixel pyTrunc
      norm_num [demoGeo]

/-- Counterexample to C6 as stated: with buffer 7/5 (1.4 pixel widths,
rounding to one buffer pixel) the shape at `(1/2, -7/10)` is skipped
outright by the prefilter of line 700 (`symin > geo_t[3] - buffer_size`,
which narrows rather than widens the kept band), so the buffered mask is
empty while the unbuffered mask holds pixel `(0, 0)` — the buffered mask
is not a superset of the unbuffered one.  (Even without the prefilter
slip, non-integer pixel shifts combined with `int()` truncation can move a
drawn pixel diagonally by `(1, 1)`, outside the reach of a one-iteration
cross dilation.) -/
theorem C6_buffer_not_superset :
    rasterizeShapefileModel demoGeo 6 6 0 [((1 : ℚ) / 2, -7 / 10)] 0 0 =
      true ∧
    rasterizeShapefileModel demoGeo 6 6 (7 / 5) [((1 : ℚ) / 2, -7 / 10)] 0 0 =
      false := by
  refine ⟨C6_unbuffered_point_drawn, ?_⟩
  have hbp : bufferPx demoGeo (7 / 5) = 1 := by
    unfold bufferPx pyRound demoGeo
    norm_num
  have hfalse : ∀ a b : ℤ,
      drawnCanvas demoGeo 6 6 (7 / 5) [((1 : ℚ) / 2, -7 / 10)] a b =
        false := by
    intro a b
    unfold drawnCanvas
    rw [decide_eq_false_iff_not]
    rintro ⟨-, -, -, -, p, hp, hkept, -⟩
    simp only [List.mem_singleton] at hp
    subst hp
    obtain ⟨-, -, -, h4⟩ := hkept
    norm_num [demoGeo] at h4
  unfold rasterizeShapefileModel
  rw [hbp]
  rw [if_pos (by norm_num)]
  rw [dilateN_false _ _ _ _ hfalse]
  simp

/-- Instance of `C6_buffer_superset_integer_shift`: a one-pixel-width
buffer on a point drawn at `(3, 0)` keeps that pixel `true`. -/
theorem C6_buffer_superset_integer_shift_inst :
    rasterizeShapefileModel demoGeo 6 6 1 [((1 : ℚ) / 2, -3)] 3 0 = true := by
  apply C6_buffer_superset_integer_shift demoGeo 6 6 1 1 (by norm_num [demoGeo])
    (by norm_num [demoGeo]) (by norm_num [demoGeo]) [((1 : ℚ) / 2, -3)] ?_ 3 0 ?_
  · intro p hp
    simp only [List.mem_singleton] at hp
    subst hp
    norm_num [demoGeo]
  · unfold rasterizeShapefileModel
    simp only [bufferPx_zero, rasterMaskShape_eq, lt_self_iff_false, if_false,
      Nat.cast_zero, add_zero, Bool.and_eq_true]
    constructor
    · rw [decide_eq_true_eq]
      norm_num
    · unfold drawnCanvas
      simp only [bufferPx_zero]
      rw [decide_eq_true_eq]
      refine ⟨by norm_num, ?_, by norm_num, ?_,
        ⟨((1 : ℚ) / 2, -3), by simp, ?_, ?_⟩⟩
      · simp [canvasSizePIL]
      · simp [canvasSizePIL]
      · exact ⟨by norm_num [demoGeo], by norm_num [demoGeo],
          by norm_num [demoGeo], by norm_num [demoGeo]⟩
      · unfold world2Pixel pyTrunc
        norm_num [demoGeo]
